import Mathlib

/-!
Verification of the `elysia-body-limit` plugin (`src/index.ts`).

The embedding models the plugin's request gate (`onRequest` hook), the
streaming size monitor (`sizeChecker` TransformStream), the content-type
normalization, the block/allow-list decision, and the startup-time platform
validation, as pure Lean functions over an explicit request view.

Modelling conventions:
* HTTP responses are represented by their status code (`Nat`); the user
  handlers `onLimit` / `onLengthRequired` are modelled by their returned
  value, `Option Nat`, where `none` models a handler returning `undefined`
  (which the code treats as "pass", per the `// undefined => pass` comments).
* `headers.get(h)` is modelled as `Option String` (`none` = header absent);
  JavaScript truthiness of such a value (`!x`) is `jsTruthy`.
* The JavaScript numeric coercion `+length` is modelled by `jsToNumber`
  following ECMA-262 ToNumber on strings (StringNumericLiteral): trim the
  surrounding whitespace, the empty remainder is 0, an optional sign applies
  to `Infinity` or a decimal literal (integer and/or fraction digits with an
  optional exponent), unsigned `0x`/`0o`/`0b` literals parse in their radix,
  and everything else is NaN.  Finite values are kept as exact scaled
  decimals `num * 10 ^ exp`; the rounding of extreme literals to IEEE
  doubles is not modelled.  `toNumber` projects out the coercions whose
  value is a natural number; the comparison `+length > maxSize` is `jsGt`,
  which is `false` when the left operand is NaN or -Infinity.
* Body streams are lists of chunks, each chunk a list of bytes (`Nat`).
-/

set_option autoImplicit false

namespace BodyLimit

/-- `BUN_MAX_SIZE = 128 * 1024 * 1024` (index.ts line 296): the documented
default ceiling used when the host exposes no `maxRequestBodySize`. -/
def BUN_MAX_SIZE : Nat := 128 * 1024 * 1024

/-- The resolved plugin options (after merging `defaultOptions` with the user
options and precomputing `blacklist`, `whitelist`, `bodyCheck`,
`strictContentLength`, `maxSize`, index.ts lines 327-349).  `maxSize` is the
byte count produced by `parseFileUnit`.  The handlers are modelled by their
returned status, `none` standing for a handler that returns `undefined`. -/
structure Options where
  maxSize : Nat
  validateBunConfig : Bool := true
  strictContentLength : Bool := false
  bodyCheck : Bool := false
  bodyCheckBlacklist : List String := []
  bodyCheckWhitelist : List String := []
  onLengthRequired : Option Nat := some 411
  onLimit : Option Nat := some 413
  deriving Repr, DecidableEq

/-- `defaultOptions` (index.ts lines 298-306) merged with a bare `maxSize`:
validation on, default handlers returning 413 (limit) and 411 (length
required), everything else off/empty. -/
def defaults (maxSize : Nat) : Options := { maxSize := maxSize }

/-- A request as the `onRequest` hook observes it: body presence, the raw
`transfer-encoding`, `content-length` and `content-type` header values
(`none` = absent), and the body's byte chunks. -/
structure RequestView where
  hasBody : Bool
  transferEncoding : Option String := none
  contentLength : Option String := none
  contentType : Option String := none
  body : List (List Nat) := []
  deriving Repr, DecidableEq

/-- JavaScript truthiness of a nullable header value: `null` and the empty
string are falsy, every other string is truthy. -/
def jsTruthy : Option String → Bool
  | none => false
  | some v => v != ""

/-- Strip leading and trailing whitespace from a character list. -/
def trimChars (l : List Char) : List Char :=
  ((l.dropWhile Char.isWhitespace).reverse.dropWhile Char.isWhitespace).reverse

/-- Decimal value of a digit list (most significant first). -/
def digitsToNat (l : List Char) : Nat :=
  l.foldl (fun acc c => acc * 10 + (c.toNat - 48)) 0

/-- JavaScript WhiteSpace and LineTerminator code points (ECMA-262): ASCII
whitespace, NBSP, BOM, the Unicode Zs spaces and the line/paragraph
separators. -/
def isJsWhitespace (c : Char) : Bool :=
  c == ' ' || c == '\t' || c == '\n' || c == '\r' || c == '\x0B' || c == '\x0C' ||
  c == '\u00A0' || c == '\uFEFF' || c == '\u1680' ||
  (decide ('\u2000' ≤ c) && decide (c ≤ '\u200A')) ||
  c == '\u2028' || c == '\u2029' || c == '\u202F' || c == '\u205F' || c == '\u3000'

/-- Strip leading and trailing JavaScript whitespace. -/
def jsTrim (l : List Char) : List Char :=
  ((l.dropWhile isJsWhitespace).reverse.dropWhile isJsWhitespace).reverse

/-- Hexadecimal digit recognition for `0x` literals. -/
def isHexDigitChar (c : Char) : Bool :=
  c.isDigit || (decide ('a' ≤ c) && decide (c ≤ 'f')) ||
    (decide ('A' ≤ c) && decide (c ≤ 'F'))

/-- Value of a hexadecimal digit. -/
def hexDigitVal (c : Char) : Nat :=
  if c.isDigit then c.toNat - 48
  else if decide ('a' ≤ c) then c.toNat - 87
  else c.toNat - 55

/-- Octal digit recognition for `0o` literals. -/
def isOctDigitChar (c : Char) : Bool :=
  decide ('0' ≤ c) && decide (c ≤ '7')

/-- Binary digit recognition for `0b` literals. -/
def isBinDigitChar (c : Char) : Bool :=
  c == '0' || c == '1'

/-- Value of a digit list in a given radix (most significant first). -/
def radixToNat (radix : Nat) (dval : Char → Nat) (l : List Char) : Nat :=
  l.foldl (fun acc c => acc * radix + dval c) 0

/-- A JavaScript number as produced by string coercion.  Finite values are
kept exact as scaled decimals `num * 10 ^ exp` (no IEEE rounding). -/
inductive JSNum where
  | nan
  | posInf
  | negInf
  | val (num : Int) (exp : Int)
  deriving Repr, DecidableEq

/-- ExponentPart body (after the `e`/`E`): an optional sign followed by at
least one decimal digit. -/
def parseExponent (l : List Char) : Option Int :=
  match l with
  | '+' :: rest =>
    if rest.isEmpty || !rest.all Char.isDigit then none
    else some (digitsToNat rest)
  | '-' :: rest =>
    if rest.isEmpty || !rest.all Char.isDigit then none
    else some (-(digitsToNat rest : Int))
  | _ =>
    if l.isEmpty || !l.all Char.isDigit then none
    else some (digitsToNat l)

/-- StrUnsignedDecimalLiteral without the `Infinity` form:
`digits [. digits] [e/E sign? digits]` or `. digits [e/E sign? digits]`,
valued exactly as a scaled decimal `(mantissa, exponent)`. -/
def parseUnsignedDec (l : List Char) : Option (Int × Int) :=
  let mant := l.takeWhile (fun c => c != 'e' && c != 'E')
  let erest := l.dropWhile (fun c => c != 'e' && c != 'E')
  let expo : Option Int :=
    match erest with
    | [] => some 0
    | _ :: es => parseExponent es
  match expo with
  | none => none
  | some e =>
    let ip := mant.takeWhile (fun c => c != '.')
    let frest := mant.dropWhile (fun c => c != '.')
    match frest with
    | [] =>
      if ip.isEmpty || !ip.all Char.isDigit then none
      else some ((digitsToNat ip : Int), e)
    | _ :: fp =>
      if !ip.all Char.isDigit || !fp.all Char.isDigit then none
      else if ip.isEmpty && fp.isEmpty then none
      else some ((digitsToNat (ip ++ fp) : Int), e - fp.length)

/-- StrDecimalLiteral body after an optional sign: `Infinity` or an unsigned
decimal literal; anything else is NaN. -/
def parseSignedPart (neg : Bool) (l : List Char) : JSNum :=
  if l = "Infinity".toList then (if neg then .negInf else .posInf)
  else
    match parseUnsignedDec l with
    | some (n, e) => .val (if neg then -n else n) e
    | none => .nan

/-- JavaScript string-to-number coercion `+s` (ECMA-262
StringNumericLiteral): surrounding whitespace is ignored, the empty
remainder coerces to 0, an optional sign applies to `Infinity` or a decimal
literal, unsigned `0x`/`0o`/`0b` literals parse in their radix, and
everything else (including signed radix literals) is NaN. -/
def jsToNumber (s : String) : JSNum :=
  match jsTrim s.toList with
  | [] => .val 0 0
  | '+' :: rest => parseSignedPart false rest
  | '-' :: rest => parseSignedPart true rest
  | '0' :: c :: rest =>
    if c == 'x' || c == 'X' then
      if !rest.isEmpty && rest.all isHexDigitChar then
        .val (radixToNat 16 hexDigitVal rest : Nat) 0
      else .nan
    else if c == 'o' || c == 'O' then
      if !rest.isEmpty && rest.all isOctDigitChar then
        .val (radixToNat 8 (fun d => d.toNat - 48) rest : Nat) 0
      else .nan
    else if c == 'b' || c == 'B' then
      if !rest.isEmpty && rest.all isBinDigitChar then
        .val (radixToNat 2 (fun d => d.toNat - 48) rest : Nat) 0
      else .nan
    else parseSignedPart false ('0' :: c :: rest)
  | t => parseSignedPart false t

/-- The natural-number projection of the JS coercion: `toNumber s = some n`
exactly when `+s` is the natural number `n`; `none` covers NaN, the
infinities, negative and non-integer values.  Used to quantify the
declared-length claims over numeric Content-Length values. -/
def toNumber (s : String) : Option Nat :=
  match jsToNumber s with
  | .val num e =>
    if 0 ≤ e then
      if 0 ≤ num * (10 : Int) ^ e.toNat then some ((num * (10 : Int) ^ e.toNat).toNat)
      else none
    else
      if 0 ≤ num ∧ num % (10 : Int) ^ (-e).toNat = 0 then
        some ((num / (10 : Int) ^ (-e).toNat).toNat)
      else none
  | _ => none

/-- JavaScript `>` with a possibly-NaN left operand, as in the comparison
`+length > maxSize` (index.ts lines 405-406, "auto compare and handles
NaN"): `false` for NaN and -Infinity, `true` for +Infinity, and for a
finite scaled decimal the exact comparison `num * 10 ^ exp > m`, cleared of
the scale by multiplying the smaller-scaled side. -/
def jsGt (x : JSNum) (m : Nat) : Bool :=
  match x with
  | .nan => false
  | .posInf => true
  | .negInf => false
  | .val num e =>
    if 0 ≤ e then decide ((m : Int) < num * (10 : Int) ^ e.toNat)
    else decide ((m : Int) * (10 : Int) ^ (-e).toNat < num)

/-- Content-type normalization (index.ts lines 385-391):
`headers.get("content-type") || ""`, then the slice before the first `;`
(the whole value when there is no `;`).  No trimming is performed. -/
def normalizeContentType (h : Option String) : String :=
  let ty := h.getD ""
  String.mk (ty.toList.takeWhile (fun c => c != ';'))

/-- Modelled from the spec (§4.1), for comparison with
`normalizeContentType`: "the substring before the first `;`, trimmed;
absence of the header normalizes to the empty string". -/
def specNormalizeContentType (h : Option String) : String :=
  String.mk (trimChars ((h.getD "").toList.takeWhile (fun c => c != ';')))

/-- The deep-inspection decision (index.ts lines 417-421): skip when the
normalized type is in the blacklist; else skip when the whitelist is
non-empty and the type is not in it; else inspect.  The `Set` membership of
the source is exact string equality, modelled by `List.contains`. -/
def shouldInspect (blacklist whitelist : List String) (t : String) : Bool :=
  if blacklist.contains t then false
  else if decide (whitelist.length > 0) && !whitelist.contains t then false
  else true

/-- What the `onRequest` hook (index.ts lines 375-447) does with a request:
pass it through untouched, short-circuit with a response, or attach the
streaming size monitor to the body. -/
inductive GateResult where
  | pass
  | respond (status : Nat)
  | monitored
  deriving Repr, DecidableEq

/-- Interpretation of a handler's return value when the hook returns it
(`return onLimit(ctx) // undefined => pass`). -/
def returnHandler : Option Nat → GateResult
  | some s => .respond s
  | none => .pass

/-- The `onRequest` hook (index.ts lines 375-447), excluding the stream
wiring itself: bodyless requests are skipped; without `transfer-encoding`
the declared-length path runs (missing/empty length → strict check, present
length → `+length > maxSize` comparison); with `transfer-encoding` the
classifier decides whether the monitor is attached. -/
def onRequestGate (o : Options) (req : RequestView) : GateResult :=
  if !req.hasBody then .pass
  else
    let length := req.contentLength
    let contentType := normalizeContentType req.contentType
    if !jsTruthy req.transferEncoding then
      if !jsTruthy length then
        if o.strictContentLength then returnHandler o.onLengthRequired
        else .pass
      else if jsGt (jsToNumber (length.getD "")) o.maxSize then
        returnHandler o.onLimit
      else .pass
    else
      if !o.bodyCheck then .pass
      else if !shouldInspect o.bodyCheckBlacklist o.bodyCheckWhitelist contentType then .pass
      else .monitored

/-- The `sizeChecker` TransformStream (index.ts lines 424-441) run over the
whole chunk list: `received` accumulates chunk lengths; once
`received > maxSize`, if `onLimit` returns a value the stream errors with it
(the current chunk is not enqueued and nothing further is processed),
otherwise the chunk is enqueued and the stream continues.  Returns the
enqueued (forwarded) chunks and the error value, if any. -/
def runMonitor (maxSize : Nat) (onLimit : Option Nat) (received : Nat) :
    List (List Nat) → List (List Nat) × Option Nat
  | [] => ([], none)
  | c :: cs =>
    let r := received + c.length
    if r > maxSize then
      match onLimit with
      | some e => ([], some e)
      | none =>
        let rest := runMonitor maxSize onLimit r cs
        (c :: rest.1, rest.2)
    else
      let rest := runMonitor maxSize onLimit r cs
      (c :: rest.1, rest.2)

/-- Total byte length of a chunk list. -/
def totalLen (chunks : List (List Nat)) : Nat := (chunks.map List.length).sum

/-- The number of leading chunks whose cumulative length stays within
`maxSize` — the last complete chunk that keeps the running total within the
cap is the `fitCount`-th one. -/
def fitCount (maxSize received : Nat) : List (List Nat) → Nat
  | [] => 0
  | c :: cs =>
    if received + c.length > maxSize then 0
    else fitCount maxSize (received + c.length) cs + 1

/-- End of a request as seen from this layer: either the downstream handler
runs with the bytes that were forwarded to it, or the request terminates
with a response produced by the plugin (the stream error surfaces through
the `onError` PARSE-stage hook, index.ts lines 364-371, short-circuiting the
handler). -/
inductive Served where
  | handler (bodyBytes : List Nat)
  | limited (status : Nat)
  deriving Repr, DecidableEq

/-- The whole per-request pipeline: the gate either passes the request
through unmodified (handler sees the full body), short-circuits with a
response, or pipes the body through `sizeChecker`; a stream error becomes
the terminal response, otherwise the handler sees the forwarded bytes. -/
def processRequest (o : Options) (req : RequestView) : Served :=
  match onRequestGate o req with
  | .respond s => .limited s
  | .pass => .handler req.body.flatten
  | .monitored =>
    let m := runMonitor o.maxSize o.onLimit 0 req.body
    match m.2 with
    | some e => .limited e
    | none => .handler m.1.flatten

/-- The platform validation (index.ts lines 351-360): when
`validateBunConfig` is set, resolve the root app's
`serve.maxRequestBodySize` (falling back to `BUN_MAX_SIZE`) and throw iff
the configured `maxSize` is strictly larger.  `true` = setup throws. -/
def setupThrows (validateBunConfig : Bool) (maxSize : Nat)
    (serveMaxRequestBodySize : Option Nat) : Bool :=
  validateBunConfig && decide (maxSize > serveMaxRequestBodySize.getD BUN_MAX_SIZE)

/-! ### Helper lemmas -/

theorem totalLen_nil : totalLen [] = 0 := rfl

theorem totalLen_cons (c : List Nat) (cs : List (List Nat)) :
    totalLen (c :: cs) = c.length + totalLen cs := by
  simp [totalLen]

theorem takeWhile_of_all {α : Type} (p : α → Bool) :
    ∀ (l : List α), (∀ c ∈ l, p c = true) → l.takeWhile p = l := by
  intro l
  induction l with
  | nil => intro _; rfl
  | cons a l ih =>
    intro h
    have ha : p a = true := h a (List.mem_cons_self a l)
    simp [List.takeWhile, ha, ih fun c hc => h c (List.mem_cons_of_mem a hc)]

theorem takeWhile_append_stop {α : Type} (p : α → Bool) (x : α) (l₂ : List α)
    (hx : p x = false) :
    ∀ (l₁ : List α), (∀ c ∈ l₁, p c = true) →
      (l₁ ++ x :: l₂).takeWhile p = l₁ := by
  intro l₁
  induction l₁ with
  | nil => intro _; simp [List.takeWhile, hx]
  | cons a l ih =>
    intro h
    have ha : p a = true := h a (List.mem_cons_self a l)
    simp [List.takeWhile, ha, ih fun c hc => h c (List.mem_cons_of_mem a hc)]

theorem runMonitor_within (maxSize : Nat) (ol : Option Nat) :
    ∀ (chunks : List (List Nat)) (received : Nat),
      received + totalLen chunks ≤ maxSize →
      runMonitor maxSize ol received chunks = (chunks, none) := by
  intro chunks
  induction chunks with
  | nil => intro received _; simp [runMonitor]
  | cons c cs ih =>
    intro received h
    rw [totalLen_cons] at h
    have hr : ¬ received + c.length > maxSize := by omega
    have := ih (received + c.length) (by omega)
    simp [runMonitor, hr, this]

theorem runMonitor_limit (maxSize e : Nat) :
    ∀ (chunks : List (List Nat)) (received : Nat), received ≤ maxSize →
      runMonitor maxSize (some e) received chunks =
        (chunks.take (fitCount maxSize received chunks),
         if maxSize < received + totalLen chunks then some e else none) := by
  intro chunks
  induction chunks with
  | nil =>
    intro received h
    simp [runMonitor, fitCount, totalLen, Nat.not_lt.mpr h]
  | cons c cs ih =>
    intro received h
    by_cases hc : received + c.length > maxSize
    · have hover : maxSize < received + totalLen (c :: cs) := by
        rw [totalLen_cons]; omega
      simp [runMonitor, fitCount, hc, hover]
    · have hr : received + c.length ≤ maxSize := by omega
      have heq := ih (received + c.length) hr
      rw [totalLen_cons]
      simp [runMonitor, fitCount, hc, heq, Nat.add_assoc]

theorem totalLen_take_fitCount (maxSize : Nat) :
    ∀ (chunks : List (List Nat)) (received : Nat), received ≤ maxSize →
      received + totalLen (chunks.take (fitCount maxSize received chunks)) ≤ maxSize := by
  intro chunks
  induction chunks with
  | nil => intro received h; simpa [fitCount, totalLen] using h
  | cons c cs ih =>
    intro received h
    by_cases hc : received + c.length > maxSize
    · simpa [fitCount, hc, totalLen] using h
    · have := ih (received + c.length) (by omega)
      simp only [fitCount, hc, if_false, List.take_succ_cons, totalLen_cons]
      omega

/-- Bridge between the natural-number projection and the gate's comparison:
when `+l` coerces to the natural number `n`, the JS comparison
`+l > m` is exactly `n > m`. -/
theorem jsGt_of_toNumber_some (l : String) (n m : Nat) (h : toNumber l = some n) :
    jsGt (jsToNumber l) m = decide (m < n) := by
  unfold toNumber at h
  cases hx : jsToNumber l with
  | nan => rw [hx] at h; simp at h
  | posInf => rw [hx] at h; simp at h
  | negInf => rw [hx] at h; simp at h
  | val num e =>
    rw [hx] at h
    dsimp only at h
    by_cases he : 0 ≤ e
    · rw [if_pos he] at h
      by_cases hv : 0 ≤ num * (10 : Int) ^ e.toNat
      · rw [if_pos hv] at h
        have hn := Option.some.inj h
        have hval : num * (10 : Int) ^ e.toNat = (n : Int) := by
          rw [← hn, Int.toNat_of_nonneg hv]
        simp only [jsGt, if_pos he, hval]
        rw [decide_eq_decide]
        exact_mod_cast Iff.rfl
      · rw [if_neg hv] at h; simp at h
    · rw [if_neg he] at h
      by_cases hd : 0 ≤ num ∧ num % (10 : Int) ^ (-e).toNat = 0
      · rw [if_pos hd] at h
        have hn := Option.some.inj h
        have hdpos : (0 : Int) < (10 : Int) ^ (-e).toNat := by positivity
        have hq : 0 ≤ num / (10 : Int) ^ (-e).toNat :=
          Int.ediv_nonneg hd.1 (le_of_lt hdpos)
        have hquot : num / (10 : Int) ^ (-e).toNat = (n : Int) := by
          rw [← hn, Int.toNat_of_nonneg hq]
        have hdm := Int.ediv_add_emod num ((10 : Int) ^ (-e).toNat)
        rw [hd.2, add_zero] at hdm
        have hnum : num = (10 : Int) ^ (-e).toNat * (n : Int) := by
          rw [← hquot]; exact hdm.symm
        simp only [jsGt, if_neg he, hnum]
        rw [decide_eq_decide, mul_comm (m : Int) ((10 : Int) ^ (-e).toNat),
          mul_lt_mul_left hdpos]
        exact_mod_cast Iff.rfl
      · rw [if_neg hd] at h; simp at h

/-! ### Claim C3 -/

/-- C3 counterexample: with validation enabled and the host exposing no
ceiling (so the 128 MiB default applies), a configured cap exactly equal to
the ceiling does NOT make setup throw, although the claim requires failure
whenever `maxBytes ≥ ceiling`. -/
theorem setup_at_ceiling_does_not_throw :
    BUN_MAX_SIZE ≥ BUN_MAX_SIZE ∧ setupThrows true BUN_MAX_SIZE none = false := by
  constructor
  · exact Nat.le_refl _
  · rfl

/-- C3 amended: with platform validation enabled, configuration installation
throws if and only if the configured cap strictly exceeds the platform
ceiling, where the ceiling is the root host's `serve.maxRequestBodySize` and
falls back to 128 MiB (`BUN_MAX_SIZE`) when the host exposes none. -/
theorem setupThrows_iff_strictly_above_ceiling (maxSize : Nat)
    (serveMaxRequestBodySize : Option Nat) :
    setupThrows true maxSize serveMaxRequestBodySize = true ↔
      serveMaxRequestBodySize.getD BUN_MAX_SIZE < maxSize := by
  simp [setupThrows]

/-! ### Claim C4 -/

/-- C4 counterexample: the classifier does NOT trim the substring before the
first `;`.  On the header value `"text/plain ;charset=utf-8"` the code
produces `"text/plain "` (trailing space kept), which differs from the
trimmed value `"text/plain"` the claim prescribes. -/
theorem normalize_does_not_trim :
    normalizeContentType (some "text/plain ;charset=utf-8") = "text/plain " ∧
    specNormalizeContentType (some "text/plain ;charset=utf-8") = "text/plain" ∧
    normalizeContentType (some "text/plain ;charset=utf-8") ≠
      specNormalizeContentType (some "text/plain ;charset=utf-8") := by
  refine ⟨by decide, by decide, by decide⟩

/-- C4 amended: the classifier normalizes a raw Content-Type value to the
substring before the first `;` WITHOUT trimming; an absent header normalizes
to `""`; this normalized value alone decides block/allow-list membership, so
parameters after the `;` never affect classification. -/
theorem normalizeContentType_spec :
    normalizeContentType none = "" ∧
    (∀ base rest : String, (∀ c ∈ base.toList, c ≠ ';') →
      normalizeContentType (some (base ++ ";" ++ rest)) = base) ∧
    (∀ (bl wl : List String) (base rest : String), (∀ c ∈ base.toList, c ≠ ';') →
      shouldInspect bl wl (normalizeContentType (some (base ++ ";" ++ rest))) =
        shouldInspect bl wl (normalizeContentType (some base))) := by
  have hbase : ∀ base rest : String, (∀ c ∈ base.toList, c ≠ ';') →
      normalizeContentType (some (base ++ ";" ++ rest)) = base := by
    intro base rest h
    have hlist : (base ++ ";" ++ rest).toList = base.toList ++ ';' :: rest.toList := by
      show (base ++ ";" ++ rest).data = base.data ++ ';' :: rest.data
      simp [String.data_append]
    have hall : ∀ c ∈ base.toList, (c != ';') = true := by
      intro c hc
      simpa using h c hc
    have := takeWhile_append_stop (fun c => c != ';') ';' rest.toList (by decide)
      base.toList hall
    simp only [normalizeContentType, Option.getD, hlist, this]
    rfl
  refine ⟨rfl, hbase, ?_⟩
  intro bl wl base rest h
  have hself : normalizeContentType (some base) = base := by
    have hall : ∀ c ∈ base.toList, (c != ';') = true := by
      intro c hc
      simpa using h c hc
    simp only [normalizeContentType, Option.getD, takeWhile_of_all _ _ hall]
    rfl
  rw [hbase base rest h, hself]

/-- Witness for C4's amended theorem at a concrete input. -/
theorem normalizeContentType_spec_witness :
    normalizeContentType (some ("application/json" ++ ";" ++ "charset=utf-8")) =
      "application/json" :=
  normalizeContentType_spec.2.1 "application/json" "charset=utf-8" (by decide)

/-! ### Claim C5 -/

/-- C5: the deep-inspection decision: a block-listed type is never inspected
regardless of the allow list; otherwise a type missing from a configured
non-empty allow list is not inspected; otherwise the type is inspected. -/
theorem shouldInspect_cases (bl wl : List String) (t : String) :
    (t ∈ bl → shouldInspect bl wl t = false) ∧
    (t ∉ bl → wl ≠ [] → t ∉ wl → shouldInspect bl wl t = false) ∧
    (t ∉ bl → (wl = [] ∨ t ∈ wl) → shouldInspect bl wl t = true) := by
  refine ⟨?_, ?_, ?_⟩
  · intro h
    simp [shouldInspect, List.contains, List.elem_iff, h]
  · intro hbl hwl hmem
    have hlen : wl.length > 0 := List.length_pos.mpr hwl
    simp [shouldInspect, List.contains, List.elem_iff, hbl, hwl, hmem, hlen]
  · intro hbl hwl
    rcases hwl with h | h
    · simp [shouldInspect, List.contains, List.elem_iff, hbl, h]
    · simp [shouldInspect, List.contains, List.elem_iff, hbl, h]

/-- Witness for C5 at a concrete input: a type listed in BOTH lists is not
inspected — the block list wins. -/
theorem shouldInspect_cases_witness :
    shouldInspect ["application/json"] ["application/json"] "application/json" = false :=
  (shouldInspect_cases ["application/json"] ["application/json"] "application/json").1
    (by decide)

/-! ### Claim C10 -/

/-- C10: list membership is exact, case-sensitive string equality on the
normalized type: any type `t` different from the (sole) listed entry `u` is
not exempted by the block list `[u]` (it is inspected), and with allow list
`[u]` it is not inspected. -/
theorem listMembership_case_sensitive (t u : String) (hne : t ≠ u) :
    shouldInspect [u] [] t = true ∧ shouldInspect [] [u] t = false := by
  constructor
  · simp [shouldInspect, List.contains, List.elem_iff, hne]
  · simp [shouldInspect, List.contains, List.elem_iff, hne]

/-- Witness for C10: `"Application/JSON"` differs from the entry
`"application/json"` only in letter case, yet is treated as a non-member of
either list. -/
theorem listMembership_case_sensitive_witness :
    shouldInspect ["application/json"] [] "Application/JSON" = true ∧
    shouldInspect [] ["application/json"] "Application/JSON" = false :=
  listMembership_case_sensitive "Application/JSON" "application/json" (by decide)

/-! ### Claim C2 -/

/-- C2: for a request with a body, no streaming indicator and a numeric
declared Content-Length `n`, the request terminates with the limit-exceeded
response iff `n` strictly exceeds the cap; otherwise it passes through with
its body untouched, and the gate never attaches the body monitor (the body
is never read by this check). -/
theorem declaredLength_gate (o : Options) (req : RequestView) (l : String) (n r : Nat)
    (hb : req.hasBody = true)
    (hte : jsTruthy req.transferEncoding = false)
    (hl : req.contentLength = some l)
    (hne : l ≠ "")
    (hn : toNumber l = some n)
    (hlim : o.onLimit = some r) :
    processRequest o req =
      (if o.maxSize < n then .limited r else .handler req.body.flatten) ∧
    onRequestGate o req ≠ .monitored := by
  have htr : jsTruthy (some l) = true := by simp [jsTruthy, hne]
  have hjs : jsGt (jsToNumber l) o.maxSize = decide (o.maxSize < n) :=
    jsGt_of_toNumber_some l n o.maxSize hn
  have hgate : onRequestGate o req =
      (if o.maxSize < n then GateResult.respond r else .pass) := by
    by_cases hcmp : o.maxSize < n
    · simp [onRequestGate, hb, hte, hl, htr, hjs, hlim, returnHandler, hcmp]
    · simp [onRequestGate, hb, hte, hl, htr, hjs, hlim, returnHandler, hcmp]
  constructor
  · by_cases hcmp : o.maxSize < n
    · simp [processRequest, hgate, hcmp]
    · simp [processRequest, hgate, hcmp]
  · rw [hgate]
    by_cases hcmp : o.maxSize < n <;> simp [hcmp]

/-- Witness for C2 (spec scenario (a)): cap 5 bytes, declared length 17 →
the 413 limit-exceeded response. -/
theorem declaredLength_gate_witness :
    processRequest (defaults 5)
      { hasBody := true, contentLength := some "17", contentType := some "text/plain" } =
      .limited 413 := by
  have h := (declaredLength_gate (defaults 5)
    { hasBody := true, contentLength := some "17", contentType := some "text/plain" }
    "17" 17 413 rfl (by decide) rfl (by decide) (by decide) rfl).1
  rw [if_pos (by decide)] at h
  exact h

/-! ### Claim C7 -/

/-- C7: a request with a body, no streaming indicator and a present but
non-numeric Content-Length — one whose JS numeric coercion is NaN — passes
through (fail-open): `NaN > maxSize` evaluates false, so the gate neither
rejects the request nor raises any fault, and the handler receives the body
unchanged. -/
theorem malformedLength_fail_open (o : Options) (req : RequestView) (l : String)
    (hb : req.hasBody = true)
    (hte : jsTruthy req.transferEncoding = false)
    (hl : req.contentLength = some l)
    (hne : l ≠ "")
    (hnan : jsToNumber l = .nan) :
    onRequestGate o req = .pass ∧ processRequest o req = .handler req.body.flatten := by
  have htr : jsTruthy (some l) = true := by simp [jsTruthy, hne]
  have hgate : onRequestGate o req = .pass := by
    simp [onRequestGate, hb, hte, hl, htr, hnan, jsGt]
  exact ⟨hgate, by simp [processRequest, hgate]⟩

/-- Witness for C7: Content-Length `"abc"` passes through. -/
theorem malformedLength_fail_open_witness :
    onRequestGate (defaults 5) { hasBody := true, contentLength := some "abc" } = .pass :=
  (malformedLength_fail_open (defaults 5)
    { hasBody := true, contentLength := some "abc" }
    "abc" rfl (by decide) rfl (by decide) (by decide)).1

/-! ### Claim C8 -/

/-- C8: a request with a body but neither streaming indicator nor declared
Content-Length terminates with the length-required response (411 under the
default handler) when `strictContentLength` is enabled, and passes through
when it is disabled. -/
theorem strictContentLength_gate (o : Options) (req : RequestView) (r : Nat)
    (hb : req.hasBody = true)
    (hte : jsTruthy req.transferEncoding = false)
    (hl : jsTruthy req.contentLength = false) :
    (o.strictContentLength = true → o.onLengthRequired = some r →
      processRequest o req = .limited r) ∧
    (o.strictContentLength = false → processRequest o req = .handler req.body.flatten) := by
  constructor
  · intro hs hr
    simp [processRequest, onRequestGate, hb, hte, hl, hs, hr, returnHandler]
  · intro hs
    simp [processRequest, onRequestGate, hb, hte, hl, hs]

/-- Witness for C8: strict mode, no Content-Length, default handler → 411. -/
theorem strictContentLength_gate_witness :
    processRequest { defaults 999999 with strictContentLength := true }
      { hasBody := true } = .limited 411 :=
  (strictContentLength_gate { defaults 999999 with strictContentLength := true }
    { hasBody := true } 411 rfl rfl rfl).1 rfl rfl

/-! ### Claim C6 -/

/-- C6: a streaming request whose normalized content type is in the block
list bypasses the size engine entirely: the gate passes it through without
attaching the monitor, and the downstream handler receives the full body no
matter its size (so with cap 1, block list `["application/json"]` and a
20-byte JSON body the handler serves normally, yielding the 200 success). -/
theorem blocklist_bypass (o : Options) (req : RequestView)
    (hb : req.hasBody = true)
    (hte : jsTruthy req.transferEncoding = true)
    (hbc : o.bodyCheck = true)
    (hbl : normalizeContentType req.contentType ∈ o.bodyCheckBlacklist) :
    onRequestGate o req = .pass ∧ processRequest o req = .handler req.body.flatten := by
  have hskip : shouldInspect o.bodyCheckBlacklist o.bodyCheckWhitelist
      (normalizeContentType req.contentType) = false := by
    simp [shouldInspect, List.contains, List.elem_iff, hbl]
  have hgate : onRequestGate o req = .pass := by
    simp [onRequestGate, hb, hte, hbc, hskip]
  exact ⟨hgate, by simp [processRequest, hgate]⟩

/-- Witness for C6 (spec scenario (d)): cap 1, block list
`["application/json"]`, streamed 20-byte JSON body → the handler receives
all 20 bytes. -/
theorem blocklist_bypass_witness :
    processRequest
      { defaults 1 with
        bodyCheck := true
        bodyCheckBlacklist := ["application/json"] }
      { hasBody := true
        transferEncoding := some "chunked"
        contentType := some "application/json"
        body := [List.replicate 20 97] } = .handler (List.replicate 20 97) := by
  have h := (blocklist_bypass
    { defaults 1 with
      bodyCheck := true
      bodyCheckBlacklist := ["application/json"] }
    { hasBody := true
      transferEncoding := some "chunked"
      contentType := some "application/json"
      body := [List.replicate 20 97] }
    rfl (by decide) rfl (by decide)).2
  simpa using h

/-! ### Claim C1 -/

/-- C1: for a streaming request (Transfer-Encoding present) with `bodyCheck`
enabled and a non-exempt content type, and the limit handler returning a
response `r`: the monitor counts chunk lengths from 0; a body totaling at
most the cap is forwarded completely and the handler serves it (in
particular a body of exactly the cap passes); once the cumulative total
strictly exceeds the cap, the terminal result is the limit response `r` and
the bytes forwarded downstream never exceed the cap. -/
theorem streamMonitor_strict_cap (o : Options) (req : RequestView) (r : Nat)
    (hb : req.hasBody = true)
    (hte : jsTruthy req.transferEncoding = true)
    (hbc : o.bodyCheck = true)
    (hinsp : shouldInspect o.bodyCheckBlacklist o.bodyCheckWhitelist
      (normalizeContentType req.contentType) = true)
    (hlim : o.onLimit = some r) :
    (totalLen req.body ≤ o.maxSize →
      processRequest o req = .handler req.body.flatten) ∧
    (o.maxSize < totalLen req.body →
      processRequest o req = .limited r ∧
      totalLen (runMonitor o.maxSize o.onLimit 0 req.body).1 ≤ o.maxSize) := by
  have hgate : onRequestGate o req = .monitored := by
    simp [onRequestGate, hb, hte, hbc, hinsp]
  constructor
  · intro hle
    have hrun := runMonitor_within o.maxSize o.onLimit req.body 0 (by omega)
    simp [processRequest, hgate, hrun]
  · intro hgt
    have hrun := runMonitor_limit o.maxSize r req.body 0 (Nat.zero_le _)
    have hcond : o.maxSize < 0 + totalLen req.body := by omega
    constructor
    · simp [processRequest, hgate, hlim, hrun, hcond, hgt]
    · rw [hlim, hrun]
      simpa using totalLen_take_fitCount o.maxSize req.body 0 (Nat.zero_le _)

/-- Witness for C1 (spec scenario (b)): cap 10, stream of a 14-byte and a
28-byte chunk → terminal 413. -/
theorem streamMonitor_strict_cap_witness :
    processRequest { defaults 10 with bodyCheck := true }
      { hasBody := true
        transferEncoding := some "chunked"
        contentType := some "text/plain"
        body := [List.replicate 14 70, List.replicate 28 83] } = .limited 413 :=
  ((streamMonitor_strict_cap { defaults 10 with bodyCheck := true }
    { hasBody := true
      transferEncoding := some "chunked"
      contentType := some "text/plain"
      body := [List.replicate 14 70, List.replicate 28 83] }
    413 rfl (by decide) rfl (by decide) rfl).2 (by decide)).1

/-! ### Claim C9 -/

/-- C9: when the limit handler returns a response (as the default does), the
monitor forwards exactly the longest prefix of complete chunks whose
cumulative length stays within the cap: the chunk whose arrival crosses the
cap is withheld in its entirety (none of its bytes, even those at positions
at or below the cap, is enqueued), so the forwarded total never exceeds the
cap. -/
theorem monitor_withholds_whole_chunk (maxSize e : Nat) (chunks : List (List Nat)) :
    (runMonitor maxSize (some e) 0 chunks).1 = chunks.take (fitCount maxSize 0 chunks) ∧
    totalLen (runMonitor maxSize (some e) 0 chunks).1 ≤ maxSize := by
  have h := runMonitor_limit maxSize e chunks 0 (Nat.zero_le _)
  constructor
  · rw [h]
  · rw [h]
    simpa using totalLen_take_fitCount maxSize chunks 0 (Nat.zero_le _)

end BodyLimit
